import Mathlib

/-!
Verification of the MyRPC repository (a Go RPC framework) against its
natural-language specification.  The Go code is shallowly embedded: pure
fragments become Lean functions over `Nat`/`String`/`List`; stateful code
becomes explicit state passing; the concurrency of `handleRequest` and
`Broadcast` is modelled by an explicit completion order.  Machine integers
are `Nat` (all CRC32 operations stay below `2^32` by construction).
-/

/-! ## Byte strings and CRC32 (Go: hash/crc32, ChecksumIEEE)

Go strings are byte strings; `crc32.ChecksumIEEE` and `sort.Strings`
operate on the UTF-8 bytes.  We model a Go string as a Lean `String`
together with its UTF-8 byte expansion. -/

/-- UTF-8 encoding of a single code point (value of `Char.toNat`),
as Go produces when a `string` is built from text. -/
def utf8EncodeChar (c : Nat) : List Nat :=
  if c < 0x80 then [c]
  else if c < 0x800 then [0xC0 ||| (c >>> 6), 0x80 ||| (c &&& 0x3F)]
  else if c < 0x10000 then
    [0xE0 ||| (c >>> 12), 0x80 ||| ((c >>> 6) &&& 0x3F), 0x80 ||| (c &&& 0x3F)]
  else
    [0xF0 ||| (c >>> 18), 0x80 ||| ((c >>> 12) &&& 0x3F),
     0x80 ||| ((c >>> 6) &&& 0x3F), 0x80 ||| (c &&& 0x3F)]

/-- The UTF-8 bytes of a string (Go: `[]byte(key)`). -/
def strBytes (s : String) : List Nat :=
  (s.data.map (fun c => utf8EncodeChar c.toNat)).flatten

/-- One shift step of the reflected CRC-32 (IEEE polynomial 0xEDB88320). -/
def crc32Step (c : Nat) : Nat :=
  if c % 2 = 1 then (c / 2) ^^^ 0xEDB88320 else c / 2

/-- Fold one byte into the running CRC (eight shift steps). -/
def crc32Update (c b : Nat) : Nat :=
  crc32Step (crc32Step (crc32Step (crc32Step
    (crc32Step (crc32Step (crc32Step (crc32Step (c ^^^ b))))))))

/-- Go: `crc32.ChecksumIEEE` over a byte slice. -/
def crc32Bytes (bytes : List Nat) : Nat :=
  (bytes.foldl crc32Update 0xFFFFFFFF) ^^^ 0xFFFFFFFF

/-- Go: `crc32.ChecksumIEEE([]byte(key))`, i.e. `HashRing.hashKey`
in src/unnamed/part_001. -/
def hashKey (key : String) : Nat := crc32Bytes (strBytes key)

/-! ## Go byte-wise string comparison (Go: `sort.Strings`, `<` on strings)

Go compares strings byte by byte.  (On UTF-8 this coincides with code
point order, but we model the byte order literally.) -/

/-- Byte-wise lexicographic less-or-equal on byte lists. -/
def bytesLe : List Nat → List Nat → Bool
  | [], _ => true
  | _ :: _, [] => false
  | a :: as, b :: bs => if a < b then true else if b < a then false else bytesLe as bs

/-- Go's `s <= t` on strings: byte-wise lexicographic order. -/
def goStrLe (s t : String) : Prop := bytesLe (strBytes s) (strBytes t) = true

instance : DecidableRel goStrLe := fun s t => by
  unfold goStrLe; infer_instance

/-! ## HashRing (src/unnamed/part_001)

`nodes` is a Go map from 32-bit key to backend address, modelled as an
association list whose insert updates in place and whose delete removes
the (unique) binding; `sortedNodes` is the sorted key slice. -/

structure HashRing where
  replicateCount : Nat
  nodes : List (Nat × String)
  sortedNodes : List Nat
deriving Repr, DecidableEq

/-- Go map lookup `hr.nodes[key]` as an `Option` (no zero-value default). -/
def mapLookup (m : List (Nat × String)) (k : Nat) : Option String :=
  match m with
  | [] => none
  | (k', v) :: rest => if k' = k then some v else mapLookup rest k

/-- Go map read `hr.nodes[key]`: a missing key yields the zero value `""`. -/
def mapGet (m : List (Nat × String)) (k : Nat) : String :=
  (mapLookup m k).getD ""

/-- Go map assignment `m[k] = v`: update the existing binding in place,
or append a fresh binding. -/
def mapInsert (m : List (Nat × String)) (k : Nat) (v : String) : List (Nat × String) :=
  match m with
  | [] => [(k, v)]
  | (k', v') :: rest => if k' = k then (k, v) :: rest else (k', v') :: mapInsert rest k v

/-- Go `delete(m, k)`: remove the binding for `k` (the first one in the
association list; with unique keys this is the Go map delete). -/
def mapDelete (m : List (Nat × String)) (k : Nat) : List (Nat × String) :=
  match m with
  | [] => []
  | (k', v') :: rest => if k' = k then rest else (k', v') :: mapDelete rest k

/-- Go `sort.Slice(hr.sortedNodes, less: <)`: the ascending sort of the key
slice.  (Any correct sort of `Nat`s produces this list, because sorted
permutations of the same multiset of naturals are equal.) -/
def sortKeys (l : List Nat) : List Nat := List.insertionSort (· ≤ ·) l

/-- The virtual-node keys `CRC32(itoa(i) + masterNode)` for `i in 0..R-1`
that `AddNode`/`removeNode` iterate over. -/
def ringKeys (replicateCount : Nat) (masterNode : String) : List Nat :=
  (List.range replicateCount).map (fun i => hashKey (toString i ++ masterNode))

/-- The body of `AddNode`'s loop, iterated over the precomputed key list:
`hr.nodes[key] = masterNode; hr.sortedNodes = append(hr.sortedNodes, key)`. -/
def addKeys (masterNode : String) (nodes : List (Nat × String)) (sorted : List Nat) :
    List Nat → List (Nat × String) × List Nat
  | [] => (nodes, sorted)
  | k :: ks => addKeys masterNode (mapInsert nodes k masterNode) (sorted ++ [k]) ks

/-- Go: `HashRing.AddNode` — add the `replicateCount` virtual nodes for
`masterNode`, then re-sort the key slice. -/
def HashRing.AddNode (hr : HashRing) (masterNode : String) : HashRing :=
  let p := addKeys masterNode hr.nodes hr.sortedNodes (ringKeys hr.replicateCount masterNode)
  { hr with nodes := p.1, sortedNodes := sortKeys p.2 }

/-- Go: `HashRing.getIndexForKey` — linear scan for the first slice index
holding `key`; `none` models `success == false`. -/
def getIndexForKey (sortedNodes : List Nat) (key : Nat) : Option Nat :=
  match sortedNodes with
  | [] => none
  | v :: rest => if v = key then some 0 else (getIndexForKey rest key).map (· + 1)

/-- The splice `append(s[:index], s[index+1:]...)` guarded by
`getIndexForKey`, as in `removeNode`'s loop body. -/
def spliceOut (sorted : List Nat) (key : Nat) : List Nat :=
  match getIndexForKey sorted key with
  | some index => sorted.take index ++ sorted.drop (index + 1)
  | none => sorted

/-- The body of `removeNode`'s loop, iterated over the precomputed key list:
`delete(hr.nodes, key)` and splice the key out of the slice. -/
def removeKeys (nodes : List (Nat × String)) (sorted : List Nat) :
    List Nat → List (Nat × String) × List Nat
  | [] => (nodes, sorted)
  | k :: ks => removeKeys (mapDelete nodes k) (spliceOut sorted k) ks

/-- Go: `HashRing.removeNode` — remove the `replicateCount` virtual nodes
for `masterNode` from the map and the slice. -/
def HashRing.removeNode (hr : HashRing) (masterNode : String) : HashRing :=
  let p := removeKeys hr.nodes hr.sortedNodes (ringKeys hr.replicateCount masterNode)
  { hr with nodes := p.1, sortedNodes := p.2 }

/-- The `for _, node := range nodes { if hashKey < node { masterNode = ...;
break } }` walk of `GetNode`: the accumulator is the wrap-around default. -/
def getNodeLoop (m : List (Nat × String)) (h : Nat) (acc : String) : List Nat → String
  | [] => acc
  | node :: rest => if h < node then mapGet m node else getNodeLoop m h acc rest

/-- Go: `HashRing.GetNode` — empty ring yields `""`; otherwise walk the
sorted slice for the first key strictly greater than the hash of `key`,
defaulting to the backend of `sortedNodes[0]`. -/
def HashRing.GetNode (hr : HashRing) (key : String) : String :=
  if hr.nodes.length = 0 then ""
  else
    getNodeLoop hr.nodes (hashKey key) (mapGet hr.nodes (hr.sortedNodes.headD 0))
      hr.sortedNodes

/-! ## Registry (src/registry/registry.go)

The server table maps an address to the time of its last heartbeat.
Durations and instants are `Nat` nanoseconds; `start.Add(timeout).After(now)`
becomes `now < start + timeout`.  Go's map iteration order is arbitrary,
but each entry is kept or evicted independently and the kept addresses are
sorted afterwards, so a `filter` is an exact model. -/

/-- One registry entry: address and last-heartbeat instant
(Go: `ServerItem` with `Addr` and `start`). -/
abbrev RegistryTable : Type := List (String × Nat)

/-- The aliveness test of `aliveServers`:
`r.timeout == 0 || s.start.Add(r.timeout).After(time.Now())`. -/
def serverAlive (timeout now : Nat) (start : Nat) : Bool :=
  timeout = 0 || now < start + timeout

/-- Go's `sort.Strings`: ascending byte-wise lexicographic sort. -/
def sortStrings (l : List String) : List String :=
  List.insertionSort goStrLe l

/-- Go: `MyRegistry.aliveServers` — collect the alive addresses (sorted),
deleting every expired entry from the table as a side effect.  Returns
(sorted alive addresses, updated table). -/
def aliveServers (timeout now : Nat) (servers : RegistryTable) :
    List String × RegistryTable :=
  let kept := servers.filter (fun s => serverAlive timeout now s.2)
  (sortStrings (kept.map Prod.fst), kept)

/-- Go: `MyRegistry.putServer` — upsert the entry for `addr` with the
current time as its heartbeat instant. -/
def putServer (now : Nat) (servers : RegistryTable) (addr : String) : RegistryTable :=
  match servers with
  | [] => [(addr, now)]
  | (a, t) :: rest => if a = addr then (addr, now) :: rest else (a, t) :: putServer now rest addr

/-- The observable outcome of one registry HTTP request: status code,
optional `X-Myrpc-Servers` response header, and updated table. -/
structure RegistryResponse where
  status : Nat
  serversHeader : Option String
  table : RegistryTable
deriving Repr, DecidableEq

/-- Go: `MyRegistry.ServeHTTP` — `GET` answers the sorted alive list in
`X-Myrpc-Servers` (evicting expired entries); `POST` upserts the address
from `X-Myrpc-Server` (500 if missing); anything else is 405.  A handler
that never calls `WriteHeader` responds 200. -/
def registryServeHTTP (timeout now : Nat) (servers : RegistryTable)
    (method : String) (serverHeader : String) : RegistryResponse :=
  if method = "GET" then
    let p := aliveServers timeout now servers
    { status := 200, serversHeader := some (String.intercalate "," p.1), table := p.2 }
  else if method = "POST" then
    if serverHeader = "" then { status := 500, serversHeader := none, table := servers }
    else { status := 200, serversHeader := none, table := putServer now servers serverHeader }
  else { status := 405, serversHeader := none, table := servers }

/-! ## HTTP transport handshake (src/server.go ServeHTTP, src/unnamed/part_002 NewHTTPClient) -/

/-- Go: the `connected` constant in src/server.go. -/
def connectedStatus : String := "200 Connected to MyRPC"

/-- Go: `defaultRPCPath` in src/server.go. -/
def defaultRPCPath : String := "/_myrpc_"

/-- Go: the bytes `NewHTTPClient` writes —
`fmt.Sprintf("CONNECT %s HTTP/1.0\n\n", defaultRPCPath)`. -/
def clientConnectBytes (rpcPath : String) : String :=
  "CONNECT " ++ rpcPath ++ " HTTP/1.0\n\n"

/-- Go: the bytes `Server.ServeHTTP` writes on a CONNECT —
`io.WriteString(conn, "HTTP/1.0 "+connected+"\n\n")`. -/
def serverConnectReply : String := "HTTP/1.0 " ++ connectedStatus ++ "\n\n"

/-- The observable outcome of `Server.ServeHTTP` on one request: either a
plain HTTP response (status, Content-Type, body) or a hijacked connection
on which the given bytes have been written. -/
inductive ServeHTTPResult where
  | plain (status : Nat) (contentType : String) (body : String)
  | hijacked (written : String)
deriving Repr, DecidableEq

/-- Go: `Server.ServeHTTP` — non-CONNECT methods get
405 / text-plain / "405 must CONNECT\n"; CONNECT hijacks the connection
and writes the status line followed by a blank line. -/
def serverServeHTTP (method : String) : ServeHTTPResult :=
  if method ≠ "CONNECT" then
    ServeHTTPResult.plain 405 "text/plain; charset=utf-8" "405 must CONNECT\n"
  else
    ServeHTTPResult.hijacked serverConnectReply

/-! ## Server request handling (src/server.go handleRequest)

`handleRequest` spawns a goroutine that runs the handler and writes its
response, while the parent selects on `ctx.Done()`.  With a non-zero
timeout the context is a `WithTimeout` context and the parent, once
`ctx.Done()` fires (by deadline, or by the `cancel()` the goroutine calls
after a successful send), writes the synthetic timeout response.  Nothing
suppresses either write, so we model the emitted responses as a list in
wall-clock order, parametrised by the handler's running time `d` and the
handler's outcome.  The goroutine's send happens before its `cancel()`,
so on the fast-success path the reply precedes the timeout response. -/

/-- One response written on the connection for this request's Seq:
either the handler's reply, a handler error (header error set, placeholder
body), or the synthetic timeout error
`"rpc server: request handle timeout: expect within <timeout>"`. -/
inductive ServerWrite where
  | reply (v : String)
  | handlerError (msg : String)
  | timeoutError (timeout : Nat)
deriving Repr, DecidableEq

/-- Go: `Server.handleRequest` with `timeout`, a handler that finishes
after `d` nanoseconds with outcome `res` (`ok reply` or `error msg`): the
list of responses written for this request, in order.
With `timeout = 0` the context is only ever cancelled by the goroutine
(success path), and the `select` branch sends nothing.
With `timeout ≠ 0`, `ctx.Done()` always fires —
at the deadline on the error path (the goroutine never cancels there),
and at `min d timeout` on the success path — and the parent then
unconditionally writes the timeout response. -/
def handleRequest (timeout d : Nat) (res : Except String String) : List ServerWrite :=
  if timeout = 0 then
    match res with
    | Except.error e => [ServerWrite.handlerError e]
    | Except.ok v => [ServerWrite.reply v]
  else
    match res with
    | Except.error e =>
      if d ≤ timeout then
        [ServerWrite.handlerError e, ServerWrite.timeoutError timeout]
      else
        [ServerWrite.timeoutError timeout, ServerWrite.handlerError e]
    | Except.ok v =>
      if d ≤ timeout then
        [ServerWrite.reply v, ServerWrite.timeoutError timeout]
      else
        [ServerWrite.timeoutError timeout, ServerWrite.reply v]

/-! ## findService (src/server.go) -/

/-- The three error shapes of `findService`, with their exact messages
reconstructed by `FindServiceError.message`. -/
inductive FindServiceError where
  | illFormed (serviceMethod : String)
  | noService (serviceName : String)
  | noMethod (methodName : String)
deriving Repr, DecidableEq

/-- The `errors.New` strings of `findService`. -/
def FindServiceError.message : FindServiceError → String
  | FindServiceError.illFormed sm => "rpc server: server/method request ill-formed: " ++ sm
  | FindServiceError.noService sn => "rpc server: can't find service " ++ sn
  | FindServiceError.noMethod mn => "rpc server: can't find method " ++ mn

/-- Go: `strings.LastIndex(s, ".")` at the character level — the index of
the last `'.'`, or `none` (Go: `-1`) if there is none. -/
def lastDotIdxAux (acc : Option Nat) (i : Nat) : List Char → Option Nat
  | [] => acc
  | c :: rest => lastDotIdxAux (if c = '.' then some i else acc) (i + 1) rest

/-- Index of the last dot of a string, if any. -/
def lastDotIdx (s : String) : Option Nat := lastDotIdxAux none 0 s.data

/-- A service map: service name to the names of its registered methods
(Go: `server.serviceMap`, each `service.method` keyed by method name). -/
abbrev ServiceMap : Type := List (String × List String)

/-- Lookup of a service by name (Go: `server.serviceMap.Load`). -/
def serviceLookup (m : ServiceMap) (name : String) : Option (List String) :=
  match m with
  | [] => none
  | (n, ms) :: rest => if n = name then some ms else serviceLookup rest name

/-- Go: `Server.findService` — split `"Service.Method"` on the last dot
(no dot at all is ill-formed), then resolve the service and the method. -/
def findService (m : ServiceMap) (serviceMethod : String) :
    Except FindServiceError (String × String) :=
  match lastDotIdx serviceMethod with
  | none => Except.error (FindServiceError.illFormed serviceMethod)
  | some dot =>
    let serviceName : String := ⟨serviceMethod.data.take dot⟩
    let methodName : String := ⟨serviceMethod.data.drop (dot + 1)⟩
    match serviceLookup m serviceName with
    | none => Except.error (FindServiceError.noService serviceName)
    | some methods =>
      if methodName ∈ methods then Except.ok (serviceName, methodName)
      else Except.error (FindServiceError.noMethod methodName)

/-! ## Client call tracking (src/unnamed/part_002)

The client state holds the `seq` counter (starting at 1), the two flags
and the pending map `Seq -> Call`.  A `Call` is identified here by an
abstract call identifier; a done notification is the identifier of the
call whose `done()` was invoked, so "Done fires exactly once" becomes a
count over the emitted notification list. -/

/-- The sentinel `ErrShutdown = errors.New("connection is shut down")`. -/
def errShutdownMsg : String := "connection is shut down"

/-- The mutable client fields that `registerCall` / `removeCall` /
`terminateCalls` touch.  `pending` is the map `Seq -> Call`, as an
association list keyed by `Seq` with abstract call identifiers as
values. -/
structure ClientState where
  seq : Nat
  closing : Bool
  shutdown : Bool
  pending : List (Nat × Nat)
deriving Repr, DecidableEq

/-- Go: `newClientCodec` initialises `seq` to 1 ("0 means invalid") with
an empty pending map and clear flags. -/
def initialClientState : ClientState :=
  { seq := 1, closing := false, shutdown := false, pending := [] }

/-- Go: `Client.registerCall` — under the state lock: if closing or
shutdown, return `ErrShutdown` and leave the state untouched; otherwise
assign `call.Seq = client.seq`, insert the call into `pending`, and
increment `seq`.  Returns the new state and the assigned Seq or the
error. -/
def registerCall (st : ClientState) (callId : Nat) : ClientState × Except String Nat :=
  if st.closing || st.shutdown then (st, Except.error errShutdownMsg)
  else
    ({ st with pending := st.pending ++ [(st.seq, callId)], seq := st.seq + 1 },
     Except.ok st.seq)

/-- Go: `Client.removeCall` — look up `pending[seq]`, delete the entry,
and return the call (or `none`). -/
def removeCall (st : ClientState) (seq : Nat) : ClientState × Option Nat :=
  ({ st with pending := st.pending.eraseP (fun p => p.1 == seq) },
   (st.pending.find? (fun p => p.1 == seq)).map Prod.snd)

/-- Go: `Client.terminateCalls` — set `shutdown` and invoke `done()` on
every pending call (the pending map itself is not cleared).  The second
component lists the emitted done notifications. -/
def terminateCalls (st : ClientState) : ClientState × List Nat :=
  ({ st with shutdown := true }, st.pending.map Prod.snd)

/-- Go: `Client.send` — register the call; on registration failure invoke
`done()` but fall through (the code does not return); then write the
request, and on write failure remove and complete whatever call is
registered under the written Seq (Seq 0 after a failed registration).
`writeFails` says whether `cc.Write` errors.  Returns the new state and
the done notifications emitted, in order. -/
def clientSend (st : ClientState) (callId : Nat) (writeFails : Bool) :
    ClientState × List Nat :=
  match registerCall st callId with
  | (st1, Except.error _) =>
    if writeFails then
      let p := removeCall st1 0
      (p.1, callId :: p.2.toList)
    else (st1, [callId])
  | (st1, Except.ok seq) =>
    if writeFails then
      let p := removeCall st1 seq
      (p.1, p.2.toList)
    else (st1, [])

/-- One received response header, as `Client.receive` sees it. -/
structure RecvHeader where
  seq : Nat
  error : String
deriving Repr, DecidableEq

/-- Go: one iteration of `Client.receive` after a header was read —
remove the pending call for `h.Seq`; if no call, drain the body; if the
header carries an error, set `call.Error` and complete; otherwise decode
the body into the reply (a decode failure only changes `call.Error`) and
complete.  Returns the new state and the done notifications emitted. -/
def clientReceiveStep (st : ClientState) (h : RecvHeader) (bodyDecodeFails : Bool) :
    ClientState × List Nat :=
  let p := removeCall st h.seq
  match p.2 with
  | none => (p.1, [])
  | some callId =>
    if h.error ≠ "" then (p.1, [callId])
    else if bodyDecodeFails then (p.1, [callId])
    else (p.1, [callId])

/-! ## parseOptions (src/unnamed/part_002) -/

/-- Go: the `Option` negotiation struct.  Durations are `Nat`
nanoseconds; `CodecType` is its string value. -/
structure GoOption where
  magicNumber : Nat
  codecType : String
  connectTimeout : Nat
  handleTimeout : Nat
deriving Repr, DecidableEq

/-- Go: `MagicNumber = 0x79779200` in src/server.go. -/
def magicNumberConst : Nat := 0x79779200

/-- Go: `DefaultOption` — compiled-in magic number, gob codec, 10 s
connect timeout, unbounded handle timeout. -/
def DefaultOption : GoOption :=
  { magicNumber := magicNumberConst
    codecType := "application/gob"
    connectTimeout := 10000000000
    handleTimeout := 0 }

/-- Go: `parseOptions(opts ...*Option)` — the variadic argument is a list
of possibly-nil pointers.  `len(opts) == 0 || opts[0] == nil` yields the
default; otherwise `len(opts) != 1` is an error; otherwise the first
option is taken, its `MagicNumber` overwritten with the default's, and an
empty `CodecType` replaced by the default codec. -/
def parseOptions (opts : List (Option GoOption)) : Except String GoOption :=
  if opts.length = 0 ∨ opts.head? = some none then Except.ok DefaultOption
  else if opts.length ≠ 1 then Except.error "number of options is more than 1"
  else
    match opts with
    | some o :: _ =>
      Except.ok { o with
        magicNumber := DefaultOption.magicNumber
        codecType := if o.codecType = "" then DefaultOption.codecType else o.codecType }
    | _ => Except.ok DefaultOption

/-! ## XClient.Broadcast (src/unnamed/part_001)

Broadcast launches one goroutine per endpoint returned by `GetAll` and
folds their completions under a mutex.  We model the execution by the
endpoints' intrinsic call outcomes listed in completion order.  The
shared state is `(e, reply, cancelled)`: the first error is recorded in
`e` and triggers `cancel()`; the first success (while `!replyDone`)
copies its reply into the caller's value.  After `cancel()` a
still-running call observes a cancelled context and completes with a
context error, which is modelled by replacing its intrinsic outcome. -/

/-- The post-wait observable state of one `Broadcast`: the returned error
`e`, the caller's reply (set by the first successful clone copy), and
whether `cancel()` was invoked by the error path. -/
structure BroadcastOutcome where
  e : Option String
  reply : Option Nat
  cancelled : Bool
deriving Repr, DecidableEq

/-- The mutex-protected completion bookkeeping of one endpoint call in
`Broadcast`: record the first error (and cancel), copy the first
successful reply. -/
def broadcastStep (acc : BroadcastOutcome) (res : Except String Nat) : BroadcastOutcome :=
  let res := if acc.cancelled then Except.error "context canceled" else res
  match res with
  | Except.error err =>
    if acc.e = none then { acc with e := some err, cancelled := true } else acc
  | Except.ok v =>
    if acc.reply = none then { acc with reply := some v } else acc

/-- Go: `XClient.Broadcast` over the endpoints returned by `GetAll`,
given the intrinsic outcome of each endpoint's call in completion order
(the caller passed a non-nil reply, so `replyDone` starts `false`).
Returns the state after `wg.Wait()`; the function's return value is the
`e` field. -/
def broadcast (completions : List (Except String Nat)) : BroadcastOutcome :=
  completions.foldl broadcastStep { e := none, reply := none, cancelled := false }

/-! ## Derived definitions used by the theorem statements -/

/-- The error carried by a completed broadcast call, if any. -/
def exceptErr (r : Except String Nat) : Option String :=
  match r with
  | Except.error e => some e
  | Except.ok _ => none

/-- The value carried by a completed broadcast call, if any. -/
def exceptOk (r : Except String Nat) : Option Nat :=
  match r with
  | Except.ok v => some v
  | Except.error _ => none

/-- The first error among the completions, in completion order. -/
def broadcastFirstError (completions : List (Except String Nat)) : Option String :=
  completions.findSome? exceptErr

/-- The first successful reply completing before the first error takes
effect (after the first error every still-running call is cancelled). -/
def broadcastFirstReply (completions : List (Except String Nat)) : Option Nat :=
  (completions.takeWhile (fun r => exceptErr r = none)).findSome? exceptOk

/-- The ways a `Call` created by `Go` completes with success or error:
rejected registration (on a closing or shut-down client, with or without
a subsequent wire-write failure), wire-write failure, a received response
(server error header / reply-decode failure / success), or client
shutdown via `terminateCalls`. -/
inductive CallCompletion where
  | registerRejected (writeFails : Bool)
  | writeFailed
  | responseReceived (errorHeader : String) (bodyDecodeFails : Bool)
  | connectionTerminated
deriving Repr, DecidableEq

/-- Which client states each completion path can start from: a rejected
registration needs a set flag, everything else a live client. -/
def completionValid (st : ClientState) (c : CallCompletion) : Prop :=
  match c with
  | CallCompletion.registerRejected _ => st.closing = true ∨ st.shutdown = true
  | _ => st.closing = false ∧ st.shutdown = false

/-- The done notifications emitted while the call `callId` completes
through the given path, starting from state `st`: `send` alone, or `send`
followed by the receive-loop iteration for the assigned Seq (`st.seq`),
or `send` followed by `terminateCalls`. -/
def callDoneEvents (st : ClientState) (callId : Nat) : CallCompletion → List Nat
  | CallCompletion.registerRejected wf => (clientSend st callId wf).2
  | CallCompletion.writeFailed => (clientSend st callId true).2
  | CallCompletion.responseReceived errh bdf =>
    let p := clientSend st callId false
    p.2 ++ (clientReceiveStep p.1 { seq := st.seq, error := errh } bdf).2
  | CallCompletion.connectionTerminated =>
    let p := clientSend st callId false
    p.2 ++ (terminateCalls p.1).2

/-- The client-state invariant maintained by the real client: `seq`
starts at 1, every pending Seq was assigned before the current `seq`,
pending call identifiers are distinct, and the completing call is not
already pending. -/
def ClientInv (st : ClientState) (callId : Nat) : Prop :=
  1 ≤ st.seq ∧ (∀ p ∈ st.pending, 1 ≤ p.1 ∧ p.1 < st.seq) ∧
    (st.pending.map Prod.snd).Nodup ∧ callId ∉ st.pending.map Prod.snd

/-! ## Theorems -/

/-- Claim C1: the claim states that with a non-zero handle timeout whose
timer expires before the handler completes, the server sends the
synthetic timeout response and the late handler completion is discarded,
so at most one response is written per Seq.  The code violates this: the
handler goroutine is never stopped and writes its response anyway, and
symmetrically a fast success still triggers the `ctx.Done()` branch
(via `cancel()`), so with any non-zero timeout exactly two responses are
written for the same Seq.  Evaluated at the spec's own scenario S3
(HandleTimeout 1s, handler succeeds after 3s): the timeout response is
followed by the handler's reply. -/
theorem handleRequest_writes_second_response :
    handleRequest 1000000000 3000000000 (Except.ok "7") =
      [ServerWrite.timeoutError 1000000000, ServerWrite.reply "7"] ∧
    ∀ timeout d res, timeout ≠ 0 → (handleRequest timeout d res).length = 2 := by
  refine ⟨rfl, ?_⟩
  intro timeout d res h
  unfold handleRequest
  simp only [if_neg h]
  cases res <;> by_cases hd : d ≤ timeout <;> simp [hd]

/-- Witness for the general part of the C1 theorem at timeout 1, duration
3, successful handler. -/
theorem handleRequest_writes_second_response_witness :
    (handleRequest 1 3 (Except.ok "x")).length = 2 :=
  handleRequest_writes_second_response.2 1 3 (Except.ok "x") (by decide)

/-- Claim C6, counterexample: the client's CONNECT line and the server's
status line terminate in bare LF LF (`"\n\n"`), not in CR LF CR LF as the
claim states. -/
theorem http_handshake_not_crlf :
    clientConnectBytes defaultRPCPath ≠ "CONNECT /_myrpc_ HTTP/1.0\r\n\r\n" ∧
    serverConnectReply ≠ "HTTP/1.0 200 Connected to MyRPC\r\n\r\n" := by
  constructor <;> decide

/-- Claim C6 as amended: the client sends exactly
`"CONNECT /_myrpc_ HTTP/1.0\n\n"`, the server replies exactly
`"HTTP/1.0 200 Connected to MyRPC\n\n"` on a CONNECT (and then the raw
connection proceeds), and every non-CONNECT request gets a plain-text 405
with body `"405 must CONNECT\n"`. -/
theorem http_handshake_bytes :
    clientConnectBytes defaultRPCPath = "CONNECT /_myrpc_ HTTP/1.0\n\n" ∧
    serverConnectReply = "HTTP/1.0 200 Connected to MyRPC\n\n" ∧
    serverServeHTTP "CONNECT" = ServeHTTPResult.hijacked serverConnectReply ∧
    ∀ m, m ≠ "CONNECT" →
      serverServeHTTP m =
        ServeHTTPResult.plain 405 "text/plain; charset=utf-8" "405 must CONNECT\n" := by
  refine ⟨by decide, by decide, rfl, ?_⟩
  intro m h
  unfold serverServeHTTP
  simp [h]

/-- Witness for the C6 amended theorem at the method "GET". -/
theorem http_handshake_bytes_witness :
    serverServeHTTP "GET" =
      ServeHTTPResult.plain 405 "text/plain; charset=utf-8" "405 must CONNECT\n" :=
  http_handshake_bytes.2.2.2 "GET" (by decide)

/-- Claim C7, counterexample: two options whose first is nil do NOT yield
an error — `parseOptions(nil, opt)` returns the default option, because
`len(opts) == 0 || opts[0] == nil` is checked before the length. -/
theorem parseOptions_two_opts_first_nil_ok :
    parseOptions [none, some DefaultOption] = Except.ok DefaultOption := by
  rfl

/-- Claim C7 as amended: zero options or a first nil option yield the
default Option (even when further options follow — only when the first
option is non-nil does a count above one yield an error); in every
non-error case the returned Option's MagicNumber is the compiled-in magic
number regardless of the caller's value, and an empty CodecType is
replaced by the default codec. -/
theorem parseOptions_spec (opts : List (Option GoOption)) :
    (opts = [] ∨ opts.head? = some none → parseOptions opts = Except.ok DefaultOption) ∧
    (opts.head? ≠ some none → 2 ≤ opts.length →
      parseOptions opts = Except.error "number of options is more than 1") ∧
    (∀ o, opts = [some o] →
      parseOptions opts = Except.ok
        { o with
          magicNumber := DefaultOption.magicNumber
          codecType := if o.codecType = "" then DefaultOption.codecType else o.codecType }) ∧
    (∀ res, parseOptions opts = Except.ok res → res.magicNumber = magicNumberConst) := by
  refine ⟨?_, ?_, ?_, ?_⟩
  · intro h
    unfold parseOptions
    rcases h with h | h
    · simp [h]
    · simp [h]
  · intro h1 h2
    unfold parseOptions
    have hlen : ¬ (opts.length = 0 ∨ opts.head? = some none) := by
      push_neg
      exact ⟨by omega, h1⟩
    rw [if_neg hlen, if_pos (by omega)]
  · intro o h
    subst h
    unfold parseOptions
    simp
  · intro res h
    unfold parseOptions at h
    split at h
    · cases h
      rfl
    · split at h
      · cases h
      · split at h
        · cases h
          rfl
        · cases h
          rfl

/-- Witness for the C7 amended theorem: a single caller-supplied option
with a bogus magic number and empty codec comes back with the compiled-in
magic number and the default codec, and two non-nil options are an
error. -/
theorem parseOptions_spec_witness :
    parseOptions [some { magicNumber := 999, codecType := "", connectTimeout := 0, handleTimeout := 0 }] =
      Except.ok { magicNumber := magicNumberConst, codecType := "application/gob",
                  connectTimeout := 0, handleTimeout := 0 } ∧
    parseOptions [some DefaultOption, some DefaultOption] =
      Except.error "number of options is more than 1" := by
  constructor
  · exact (parseOptions_spec _).2.2.1 _ rfl
  · exact (parseOptions_spec _).2.1 (by decide) (by decide)

/-- Claim C2, counterexample: with two endpoints where the first
completion succeeds with reply 7 and the second fails, the caller's reply
does hold the successful reply, but the returned error is the recorded
first error, not nil — `e` is never cleared by a success. -/
theorem broadcast_success_still_errors :
    (broadcast [Except.ok 7, Except.error "boom"]).reply = some 7 ∧
    (broadcast [Except.ok 7, Except.error "boom"]).e = some "boom" := by
  constructor <;> rfl

/-- Helper: `Option.or` with a `some` on the left. -/
theorem option_some_or {α : Type} (a : α) (o : Option α) : (some a).or o = some a := rfl

/-- Auxiliary fold characterisation of `Broadcast`'s completion
bookkeeping, generalised over the accumulator. -/
theorem broadcast_foldl_spec (l : List (Except String Nat)) :
    ∀ acc : BroadcastOutcome, acc.cancelled = acc.e.isSome →
      (l.foldl broadcastStep acc).e = acc.e.or (broadcastFirstError l) ∧
      (l.foldl broadcastStep acc).reply =
        acc.reply.or (if acc.cancelled then none else broadcastFirstReply l) ∧
      (l.foldl broadcastStep acc).cancelled = (acc.e.or (broadcastFirstError l)).isSome := by
  induction l with
  | nil =>
    intro acc h
    simp [broadcastFirstError, broadcastFirstReply, Option.or_none, h]
  | cons r rest ih =>
    intro acc h
    cases he : acc.e with
    | some e0 =>
      have hc : acc.cancelled = true := by rw [h, he]; rfl
      have hstep : broadcastStep acc r = acc := by
        unfold broadcastStep
        rw [hc]
        simp [he]
      rw [List.foldl_cons, hstep]
      rcases ih acc h with ⟨h1, h2, h3⟩
      refine ⟨?_, ?_, ?_⟩ <;>
        simp [h1, h2, h3, he, hc, option_some_or]
    | none =>
      have hc : acc.cancelled = false := by rw [h, he]; rfl
      cases r with
      | error err =>
        have hstep : broadcastStep acc (Except.error err) =
            { acc with e := some err, cancelled := true } := by
          unfold broadcastStep
          rw [hc]
          simp [he]
        have hfe : broadcastFirstError (Except.error err :: rest) = some err := by
          simp [broadcastFirstError, List.findSome?_cons, exceptErr]
        have hfr : broadcastFirstReply (Except.error err :: rest) = none := by
          simp [broadcastFirstReply, List.takeWhile_cons, exceptErr]
        rw [List.foldl_cons, hstep]
        rcases ih { acc with e := some err, cancelled := true } (by simp) with ⟨h1, h2, h3⟩
        refine ⟨?_, ?_, ?_⟩ <;>
          simp [h1, h2, h3, he, hc, hfe, hfr, option_some_or]
      | ok v =>
        have hfe : broadcastFirstError (Except.ok v :: rest) = broadcastFirstError rest := by
          simp [broadcastFirstError, List.findSome?_cons, exceptErr]
        have hfr : broadcastFirstReply (Except.ok v :: rest) =
            (some v).or (broadcastFirstReply rest) := by
          simp [broadcastFirstReply, List.takeWhile_cons, exceptErr, List.findSome?_cons,
            exceptOk, option_some_or]
        cases hrep : acc.reply with
        | none =>
          have hstep : broadcastStep acc (Except.ok v) = { acc with reply := some v } := by
            unfold broadcastStep
            rw [hc]
            simp [hrep]
          rw [List.foldl_cons, hstep]
          rcases ih { acc with reply := some v } (by simp [h]) with ⟨h1, h2, h3⟩
          simp only [he, hc] at h1 h2 h3
          refine ⟨?_, ?_, ?_⟩ <;>
            simp [h1, h2, h3, he, hc, hrep, hfe, hfr, option_some_or]
        | some w =>
          have hstep : broadcastStep acc (Except.ok v) = acc := by
            unfold broadcastStep
            rw [hc]
            simp [hrep]
          rw [List.foldl_cons, hstep]
          rcases ih acc h with ⟨h1, h2, h3⟩
          refine ⟨?_, ?_, ?_⟩ <;>
            simp [h1, h2, h3, he, hc, hrep, hfe, hfr, option_some_or]

/-- Claim C2 as amended: over the endpoint list returned by GetAll, the
caller's reply holds the first successful endpoint's reply (among calls
completing before cancellation takes effect), but the returned error is
nil only when NO endpoint's call fails — it is the first error to
complete, even when another endpoint succeeded; if all endpoints fail the
returned error is non-nil; and the first error (and only an error)
invokes the cancellation that propagates to still-running calls. -/
theorem broadcast_spec (completions : List (Except String Nat)) :
    (broadcast completions).e = broadcastFirstError completions ∧
    (broadcast completions).reply = broadcastFirstReply completions ∧
    (broadcast completions).cancelled = (broadcastFirstError completions).isSome := by
  have h := broadcast_foldl_spec completions
    { e := none, reply := none, cancelled := false } rfl
  simpa [broadcast, Option.none_or] using h

/-- Helper: a Lean string is its character list. -/
theorem string_mk_data (s : String) : String.mk s.data = s := by
  cases s
  rfl

/-- Helper: scanning a list ending in a dot always lands on that dot. -/
theorem lastDotIdxAux_append_dot (l : List Char) :
    ∀ (acc : Option Nat) (i : Nat), lastDotIdxAux acc i (l ++ ['.']) = some (i + l.length) := by
  induction l with
  | nil =>
    intro acc i
    simp [lastDotIdxAux]
  | cons c rest ih =>
    intro acc i
    rw [List.cons_append]
    show lastDotIdxAux (if c = '.' then some i else acc) (i + 1) (rest ++ ['.']) = _
    rw [ih]
    congr 1
    simp
    omega
/-- Helper: scanning a dot-free list returns the accumulator. -/
theorem lastDotIdxAux_no_dot (l : List Char) :
    ∀ (acc : Option Nat) (i : Nat), '.' ∉ l → lastDotIdxAux acc i l = acc := by
  induction l with
  | nil =>
    intro acc i _
    rfl
  | cons c rest ih =>
    intro acc i h
    have hc : ¬ c = '.' := fun hh => h (by simp [hh])
    show lastDotIdxAux (if c = '.' then some i else acc) (i + 1) rest = acc
    rw [if_neg hc, ih _ _ (fun hh => h (List.mem_cons_of_mem _ hh))]

/-- Helper: the scan yields nothing iff it started with nothing and the
list is dot-free. -/
theorem lastDotIdxAux_none_iff (l : List Char) :
    ∀ (acc : Option Nat) (i : Nat),
      (lastDotIdxAux acc i l = none ↔ (acc = none ∧ '.' ∉ l)) := by
  induction l with
  | nil =>
    intro acc i
    simp [lastDotIdxAux]
  | cons c rest ih =>
    intro acc i
    show (lastDotIdxAux (if c = '.' then some i else acc) (i + 1) rest = none ↔ _)
    rw [ih]
    by_cases hc : c = '.'
    · simp [hc]
    · simp [hc, Ne.symm hc]

/-- Claim C10: `findService` returns the ill-formed error exactly for
strings with no dot; a trailing-dot string `t ++ "."` resolves service
`t` with empty method name and (when `t` is a registered service without
an empty-named method) fails with the can't-find-method error; a
leading-dot string `"." ++ t` with dot-free `t` resolves the empty
service name and (when no service is named `""`) fails with the
can't-find-service error — never the ill-formed error. -/
theorem findService_dot_handling (m : ServiceMap) :
    (∀ s : String,
      (findService m s = Except.error (FindServiceError.illFormed s) ↔ '.' ∉ s.data)) ∧
    (∀ (t : String) (ms : List String), serviceLookup m t = some ms → "" ∉ ms →
      findService m (t ++ ".") = Except.error (FindServiceError.noMethod "")) ∧
    (∀ t : String, '.' ∉ t.data → serviceLookup m "" = none →
      findService m ("." ++ t) = Except.error (FindServiceError.noService "")) := by
  refine ⟨?_, ?_, ?_⟩
  · intro s
    constructor
    · intro h
      unfold findService at h
      cases hdot : lastDotIdx s with
      | none =>
        exact ((lastDotIdxAux_none_iff s.data none 0).mp hdot).2
      | some dot =>
        rw [hdot] at h
        simp only at h
        split at h
        · simp at h
        · split at h
          · simp at h
          · simp at h
    · intro h
      unfold findService
      have hnone : lastDotIdx s = none := (lastDotIdxAux_none_iff s.data none 0).mpr ⟨rfl, h⟩
      rw [hnone]
  · intro t ms hsvc hms
    unfold findService
    have hd : (t ++ ".").data = t.data ++ ['.'] := String.data_append t "."
    have hdot : lastDotIdx (t ++ ".") = some t.data.length := by
      unfold lastDotIdx
      rw [hd, lastDotIdxAux_append_dot t.data none 0, Nat.zero_add]
    rw [hdot]
    simp only [hd, List.take_left]
    have hdrop : List.drop (t.data.length + 1) (t.data ++ ['.']) = [] := by simp
    simp only [hdrop]
    rw [string_mk_data t, hsvc]
    simp only
    have hempty : ({ data := [] } : String) = "" := rfl
    rw [hempty, if_neg hms]
  · intro t ht hsvc
    unfold findService
    have hd : ("." ++ t).data = '.' :: t.data := String.data_append "." t
    have hdot : lastDotIdx ("." ++ t) = some 0 := by
      unfold lastDotIdx
      rw [hd]
      show lastDotIdxAux (if '.' = '.' then some 0 else none) 1 t.data = some 0
      rw [if_pos rfl, lastDotIdxAux_no_dot t.data _ _ ht]
    rw [hdot]
    simp only [List.take_zero]
    have hempty : ({ data := [] } : String) = "" := rfl
    rw [hempty, hsvc]

/-- Witness for the C10 theorem on the service map `[("Foo", ["Sum"])]`:
the no-dot iff at "FooSum", the trailing-dot case at "Foo" ++ ".", and
the leading-dot case at "." ++ "Sum". -/
theorem findService_dot_handling_witness :
    (findService [("Foo", ["Sum"])] "FooSum" =
      Except.error (FindServiceError.illFormed "FooSum")) ∧
    findService [("Foo", ["Sum"])] ("Foo" ++ ".") =
      Except.error (FindServiceError.noMethod "") ∧
    findService [("Foo", ["Sum"])] ("." ++ "Sum") =
      Except.error (FindServiceError.noService "") := by
  refine ⟨?_, ?_, ?_⟩
  · exact ((findService_dot_handling [("Foo", ["Sum"])]).1 "FooSum").mpr (by decide)
  · exact (findService_dot_handling [("Foo", ["Sum"])]).2.1 "Foo" ["Sum"] (by decide) (by decide)
  · exact (findService_dot_handling [("Foo", ["Sum"])]).2.2 "Sum" (by decide) (by decide)

/-- Claim C8: on a client whose closing or shutdown flag is set,
`registerCall` returns the `ErrShutdown` sentinel and leaves the pending
map and the seq counter untouched; otherwise it assigns the current
`seq` to the call, inserts it into `pending` under that Seq, and
increments `seq` by exactly one — and under the invariant that all
pending Seqs are below `seq`, the assigned Seq is fresh (never reused)
and the invariant is preserved, so assigned Seqs are strictly
increasing. -/
theorem registerCall_spec (st : ClientState) (callId : Nat) :
    (st.closing = true ∨ st.shutdown = true →
      registerCall st callId = (st, Except.error errShutdownMsg)) ∧
    (st.closing = false → st.shutdown = false →
      registerCall st callId =
        ({ st with pending := st.pending ++ [(st.seq, callId)], seq := st.seq + 1 },
         Except.ok st.seq) ∧
      ((∀ p ∈ st.pending, p.1 < st.seq) →
        st.seq ∉ st.pending.map Prod.fst ∧
        ∀ p ∈ (registerCall st callId).1.pending, p.1 < (registerCall st callId).1.seq)) := by
  constructor
  · intro h
    unfold registerCall
    have : (st.closing || st.shutdown) = true := by
      rcases h with h | h <;> simp [h]
    rw [if_pos this]
  · intro h1 h2
    have hflag : ¬ (st.closing || st.shutdown) = true := by
      simp [h1, h2]
    constructor
    · unfold registerCall
      rw [if_neg hflag]
    · intro hinv
      constructor
      · intro hmem
        rcases List.mem_map.mp hmem with ⟨p, hp, hfst⟩
        have := hinv p hp
        omega
      · intro p hp
        unfold registerCall at hp ⊢
        rw [if_neg hflag] at hp ⊢
        simp only at hp ⊢
        rcases List.mem_append.mp hp with hold | hnew
        · have := hinv p hold
          omega
        · rcases List.mem_singleton.mp hnew with rfl
          omega

/-- Witness for the C8 theorem: a closing client rejects with the
shutdown sentinel, and a fresh client assigns Seq 1 and advances to 2. -/
theorem registerCall_spec_witness :
    registerCall { seq := 1, closing := true, shutdown := false, pending := [] } 7 =
      ({ seq := 1, closing := true, shutdown := false, pending := [] },
       Except.error errShutdownMsg) ∧
    registerCall initialClientState 7 =
      ({ seq := 2, closing := false, shutdown := false, pending := [(1, 7)] },
       Except.ok 1) := by
  constructor
  · exact (registerCall_spec _ 7).1 (Or.inl rfl)
  · exact ((registerCall_spec initialClientState 7).2 rfl rfl).1

/-- Helper: the `GetNode` walk returns the backend of the first key
strictly above the hash, or the accumulator if none exists. -/
theorem getNodeLoop_find (m : List (Nat × String)) (h : Nat) (acc : String) :
    ∀ l : List Nat,
      getNodeLoop m h acc l =
        match l.find? (fun node => decide (h < node)) with
        | some node => mapGet m node
        | none => acc := by
  intro l
  induction l with
  | nil => rfl
  | cons node rest ih =>
    by_cases hlt : h < node
    · simp [getNodeLoop, List.find?_cons, hlt]
    · simp [getNodeLoop, List.find?_cons, hlt, ih]

/-- Helper: lookup after a Go map assignment. -/
theorem mapLookup_mapInsert (m : List (Nat × String)) (k k' : Nat) (v : String) :
    mapLookup (mapInsert m k v) k' = if k = k' then some v else mapLookup m k' := by
  induction m with
  | nil => simp [mapInsert, mapLookup]
  | cons p rest ih =>
    obtain ⟨pk, pv⟩ := p
    by_cases hp : pk = k
    · subst hp
      by_cases hk : pk = k'
      · subst hk
        simp [mapInsert, mapLookup]
      · simp [mapInsert, mapLookup, hk]
    · by_cases hk : pk = k'
      · subst hk
        have : ¬ k = pk := fun hh => hp hh.symm
        simp [mapInsert, mapLookup, hp, this]
      · simp [mapInsert, mapLookup, hp, hk, ih]

/-- Helper: `AddNode`'s loop preserves an existing binding to the same
backend (later inserts write the same value). -/
theorem addKeys_lookup_preserve (b : String) (ks : List Nat) :
    ∀ (nodes : List (Nat × String)) (sorted : List Nat) (k : Nat),
      mapLookup nodes k = some b →
      mapLookup (addKeys b nodes sorted ks).1 k = some b := by
  induction ks with
  | nil =>
    intro nodes sorted k h
    exact h
  | cons k0 rest ih =>
    intro nodes sorted k h
    show mapLookup (addKeys b (mapInsert nodes k0 b) (sorted ++ [k0]) rest).1 k = some b
    apply ih
    rw [mapLookup_mapInsert]
    by_cases hk : k0 = k
    · simp [hk]
    · simp [hk, h]

/-- Helper: after `AddNode`'s loop every processed key is bound to the
backend. -/
theorem addKeys_lookup_mem (b : String) (ks : List Nat) :
    ∀ (nodes : List (Nat × String)) (sorted : List Nat) (k : Nat), k ∈ ks →
      mapLookup (addKeys b nodes sorted ks).1 k = some b := by
  induction ks with
  | nil =>
    intro nodes sorted k h
    cases h
  | cons k0 rest ih =>
    intro nodes sorted k h
    show mapLookup (addKeys b (mapInsert nodes k0 b) (sorted ++ [k0]) rest).1 k = some b
    rcases List.mem_cons.mp h with rfl | hrest
    · by_cases hk : k ∈ rest
      · exact ih _ _ _ hk
      · apply addKeys_lookup_preserve
        rw [mapLookup_mapInsert]
        simp
    · exact ih _ _ _ hrest

/-- Helper: `AddNode`'s loop appends the processed keys to the slice in
order. -/
theorem addKeys_snd (b : String) (ks : List Nat) :
    ∀ (nodes : List (Nat × String)) (sorted : List Nat),
      (addKeys b nodes sorted ks).2 = sorted ++ ks := by
  induction ks with
  | nil =>
    intro nodes sorted
    simp [addKeys]
  | cons k0 rest ih =>
    intro nodes sorted
    show (addKeys b (mapInsert nodes k0 b) (sorted ++ [k0]) rest).2 = _
    rw [ih]
    simp

/-- Claim C5: `GetNode` on an empty ring returns `""`; on a non-empty
ring it returns the backend of the first sorted key strictly greater than
`CRC32(key)`, wrapping to the backend of `sortedNodes[0]` when none is
strictly greater; and after `AddNode(b)` the map binds each of the `R`
keys `CRC32(itoa(i)+b)` (`i in 0..R-1`) to `b` and the sorted slice
consists of exactly the old keys plus those `R` entries, in ascending
order. -/
theorem hashRing_getNode_addNode_spec (hr : HashRing) (key b : String) :
    (hr.nodes = [] → hr.GetNode key = "") ∧
    (hr.nodes ≠ [] →
      hr.GetNode key =
        match hr.sortedNodes.find? (fun node => decide (hashKey key < node)) with
        | some node => mapGet hr.nodes node
        | none => mapGet hr.nodes (hr.sortedNodes.headD 0)) ∧
    (∀ i, i < hr.replicateCount →
      mapLookup (hr.AddNode b).nodes (hashKey (toString i ++ b)) = some b) ∧
    ((hr.AddNode b).sortedNodes.Perm (hr.sortedNodes ++ ringKeys hr.replicateCount b) ∧
     (hr.AddNode b).sortedNodes.Sorted (· ≤ ·)) := by
  refine ⟨?_, ?_, ?_, ?_, ?_⟩
  · intro h
    unfold HashRing.GetNode
    rw [h]
    rfl
  · intro h
    unfold HashRing.GetNode
    rw [if_neg (by simpa [List.length_eq_zero] using h)]
    rw [getNodeLoop_find]
  · intro i hi
    unfold HashRing.AddNode
    apply addKeys_lookup_mem
    unfold ringKeys
    exact List.mem_map.mpr ⟨i, List.mem_range.mpr hi, rfl⟩
  · show (sortKeys (addKeys b hr.nodes hr.sortedNodes (ringKeys hr.replicateCount b)).2).Perm _
    rw [addKeys_snd]
    exact List.perm_insertionSort _ _
  · show (sortKeys (addKeys b hr.nodes hr.sortedNodes (ringKeys hr.replicateCount b)).2).Sorted _
    exact List.sorted_insertionSort _ _

/-- Witness for the C5 theorem: the empty ring with replication 2 yields
`""`, a one-node ring wraps per the characterisation, and after adding
backend "a" to the empty ring both virtual-node keys map to "a". -/
theorem hashRing_getNode_addNode_spec_witness :
    HashRing.GetNode { replicateCount := 2, nodes := [], sortedNodes := [] } "k" = "" ∧
    HashRing.GetNode { replicateCount := 1, nodes := [(100, "x")], sortedNodes := [100] } "k" =
      (match [100].find? (fun node => decide (hashKey "k" < node)) with
       | some node => mapGet [(100, "x")] node
       | none => mapGet [(100, "x")] ([100].headD 0)) ∧
    mapLookup (HashRing.AddNode { replicateCount := 2, nodes := [], sortedNodes := [] } "a").nodes
      (hashKey (toString 0 ++ "a")) = some "a" ∧
    mapLookup (HashRing.AddNode { replicateCount := 2, nodes := [], sortedNodes := [] } "a").nodes
      (hashKey (toString 1 ++ "a")) = some "a" := by
  refine ⟨?_, ?_, ?_, ?_⟩
  · exact (hashRing_getNode_addNode_spec _ "k" "a").1 rfl
  · exact (hashRing_getNode_addNode_spec _ "k" "a").2.1 (by decide)
  · exact (hashRing_getNode_addNode_spec _ "k" "a").2.2.1 0 (by decide)
  · exact (hashRing_getNode_addNode_spec _ "k" "a").2.2.1 1 (by decide)

/-- Helper: head characterisation of the byte order. -/
theorem bytesLe_cons_iff (x y : Nat) (as bs : List Nat) :
    (bytesLe (x :: as) (y :: bs) = true ↔ (x < y ∨ (x = y ∧ bytesLe as bs = true))) := by
  show ((if x < y then true else if y < x then false else bytesLe as bs) = true ↔ _)
  by_cases h1 : x < y
  · simp [h1]
  · by_cases h2 : y < x
    · simp [h1, h2]
      omega
    · have hxy : x = y := by omega
      simp [h1, h2, hxy]

/-- Helper: the byte order is total. -/
theorem bytesLe_total (a : List Nat) : ∀ b : List Nat,
    bytesLe a b = true ∨ bytesLe b a = true := by
  induction a with
  | nil =>
    intro b
    exact Or.inl rfl
  | cons x as ih =>
    intro b
    cases b with
    | nil => exact Or.inr rfl
    | cons y bs =>
      by_cases h1 : x < y
      · exact Or.inl ((bytesLe_cons_iff x y as bs).mpr (Or.inl h1))
      · by_cases h2 : y < x
        · exact Or.inr ((bytesLe_cons_iff y x bs as).mpr (Or.inl h2))
        · have hxy : x = y := by omega
          rcases ih bs with h | h
          · exact Or.inl ((bytesLe_cons_iff x y as bs).mpr (Or.inr ⟨hxy, h⟩))
          · exact Or.inr ((bytesLe_cons_iff y x bs as).mpr (Or.inr ⟨hxy.symm, h⟩))

/-- Helper: the byte order is transitive. -/
theorem bytesLe_trans (a : List Nat) : ∀ b c : List Nat,
    bytesLe a b = true → bytesLe b c = true → bytesLe a c = true := by
  induction a with
  | nil =>
    intro b c _ _
    rfl
  | cons x as ih =>
    intro b c hab hbc
    cases b with
    | nil => cases hab
    | cons y bs =>
      cases c with
      | nil => cases hbc
      | cons z cs =>
        rcases (bytesLe_cons_iff x y as bs).mp hab with h1 | ⟨h1, h1r⟩ <;>
          rcases (bytesLe_cons_iff y z bs cs).mp hbc with h2 | ⟨h2, h2r⟩
        · exact (bytesLe_cons_iff x z as cs).mpr (Or.inl (by omega))
        · exact (bytesLe_cons_iff x z as cs).mpr (Or.inl (by omega))
        · exact (bytesLe_cons_iff x z as cs).mpr (Or.inl (by omega))
        · exact (bytesLe_cons_iff x z as cs).mpr (Or.inr ⟨by omega, ih bs cs h1r h2r⟩)

instance : IsTotal String goStrLe :=
  ⟨fun a b => bytesLe_total (strBytes a) (strBytes b)⟩

instance : IsTrans String goStrLe :=
  ⟨fun _ _ _ hab hbc => bytesLe_trans _ _ _ hab hbc⟩

/-- Helper: in a table with distinct addresses, an address determines its
heartbeat time. -/
theorem nodup_key_time_unique :
    ∀ (l : RegistryTable) (addr : String) (t t' : Nat),
      (l.map Prod.fst).Nodup → (addr, t) ∈ l → (addr, t') ∈ l → t = t' := by
  intro l
  induction l with
  | nil =>
    intro addr t t' _ h
    cases h
  | cons p rest ih =>
    intro addr t t' hnd h1 h2
    have hnd' := List.nodup_cons.mp hnd
    rcases List.mem_cons.mp h1 with rfl | h1r
    · rcases List.mem_cons.mp h2 with heq | h2r
      · injection heq with hfst hsnd
        exact hsnd.symm
      · exact absurd (List.mem_map.mpr ⟨_, h2r, rfl⟩) hnd'.1
    · rcases List.mem_cons.mp h2 with rfl | h2r
      · exact absurd (List.mem_map.mpr ⟨_, h1r, rfl⟩) hnd'.1
      · exact ih addr t t' hnd'.2 h1r h2r

/-- Claim C4: on a registry with `timeout` and a GET at time `now`, a
server with last heartbeat `t` appears in the response iff
`now < t + timeout` (all servers appear when the timeout is zero);
expired entries are evicted from the table as the GET's side effect (the
kept table is exactly the alive entries); and the `X-Myrpc-Servers`
header is the alive addresses sorted into ascending byte-wise
lexicographic order, joined by commas. -/
theorem registry_get_spec (timeout now : Nat) (servers : RegistryTable)
    (hkeys : (servers.map Prod.fst).Nodup) :
    (∀ addr t, (addr, t) ∈ servers →
      (addr ∈ (aliveServers timeout now servers).1 ↔ (timeout = 0 ∨ now < t + timeout))) ∧
    (aliveServers timeout now servers).2 =
      servers.filter (fun s => serverAlive timeout now s.2) ∧
    (aliveServers timeout now servers).1.Sorted goStrLe ∧
    registryServeHTTP timeout now servers "GET" "" =
      { status := 200,
        serversHeader := some (String.intercalate "," (aliveServers timeout now servers).1),
        table := (aliveServers timeout now servers).2 } := by
  have halive : ∀ t : Nat, (serverAlive timeout now t = true ↔ (timeout = 0 ∨ now < t + timeout)) := by
    intro t
    unfold serverAlive
    simp
  refine ⟨?_, rfl, ?_, ?_⟩
  · intro addr t hmem
    unfold aliveServers sortStrings
    simp only
    rw [List.Perm.mem_iff (List.perm_insertionSort _ _)]
    constructor
    · intro h
      rcases List.mem_map.mp h with ⟨p, hp, hfst⟩
      rcases List.mem_filter.mp hp with ⟨hpmem, hpcond⟩
      obtain ⟨pa, pt⟩ := p
      cases hfst
      have : pt = t := nodup_key_time_unique servers pa pt t hkeys hpmem hmem
      subst this
      exact (halive pt).mp hpcond
    · intro h
      exact List.mem_map.mpr
        ⟨(addr, t), List.mem_filter.mpr ⟨hmem, (halive t).mpr h⟩, rfl⟩
  · exact List.sorted_insertionSort _ _
  · rfl

/-- Witness for the C4 theorem on a two-entry table with timeout 10 at
time 12: the entry heartbeaten at 5 is alive, the one at 0 is evicted. -/
theorem registry_get_spec_witness :
    ("a" ∈ (aliveServers 10 12 [("b", 0), ("a", 5)]).1 ↔ (10 = 0 ∨ 12 < 5 + 10)) ∧
    ("b" ∈ (aliveServers 10 12 [("b", 0), ("a", 5)]).1 ↔ (10 = 0 ∨ 12 < 0 + 10)) ∧
    (aliveServers 10 12 [("b", 0), ("a", 5)]).2 =
      [("b", 0), ("a", 5)].filter (fun s => serverAlive 10 12 s.2) := by
  refine ⟨?_, ?_, ?_⟩
  · exact (registry_get_spec 10 12 [("b", 0), ("a", 5)] (by decide)).1 "a" 5 (by decide)
  · exact (registry_get_spec 10 12 [("b", 0), ("a", 5)] (by decide)).1 "b" 0 (by decide)
  · exact (registry_get_spec 10 12 [("b", 0), ("a", 5)] (by decide)).2.1

/-- Helper: no pending entry is registered under a Seq at or above the
counter, so lookups at the fresh Seq (or at the invalid Seq 0) miss. -/
theorem pending_find_none (pending : List (Nat × Nat)) (s : Nat)
    (h : ∀ p ∈ pending, ¬ p.1 = s) :
    List.find? (fun p => p.1 == s) pending = none := by
  apply List.find?_eq_none.mpr
  intro x hx
  simpa using h x hx

/-- Claim C3: for every Call that completes — rejected registration on a
closed client (with or without a subsequent write failure), wire-write
failure, a received response (server error header, reply-decode failure,
or success), or client shutdown via `terminateCalls` — the done
notification for that call is emitted exactly once: never zero, never
twice. -/
theorem call_done_exactly_once (st : ClientState) (callId : Nat) (c : CallCompletion)
    (hinv : ClientInv st callId) (hval : completionValid st c) :
    (callDoneEvents st callId c).count callId = 1 := by
  obtain ⟨hseq, hpend, hnodup, hnotin⟩ := hinv
  have hfind0 : List.find? (fun p => p.1 == (0 : Nat)) st.pending = none := by
    apply pending_find_none
    intro p hp
    have := (hpend p hp).1
    omega
  have hfindseq : List.find? (fun p => p.1 == st.seq) st.pending = none := by
    apply pending_find_none
    intro p hp
    have := (hpend p hp).2
    omega
  have hcount0 : List.count callId (st.pending.map Prod.snd) = 0 :=
    List.count_eq_zero.mpr hnotin
  cases c with
  | registerRejected wf =>
    have hflag : (st.closing || st.shutdown) = true := by
      rcases hval with h | h <;> simp [h]
    have hreg : registerCall st callId = (st, Except.error errShutdownMsg) := by
      unfold registerCall
      rw [if_pos hflag]
    show (clientSend st callId wf).2.count callId = 1
    unfold clientSend
    rw [hreg]
    cases wf with
    | false => simp
    | true =>
      simp only [removeCall, hfind0, Option.map_none']
      simp
  | writeFailed =>
    obtain ⟨hcl, hsh⟩ := hval
    have hflag : ¬ (st.closing || st.shutdown) = true := by simp [hcl, hsh]
    have hreg : registerCall st callId =
        ({ st with pending := st.pending ++ [(st.seq, callId)], seq := st.seq + 1 },
         Except.ok st.seq) := by
      unfold registerCall
      rw [if_neg hflag]
    show (clientSend st callId true).2.count callId = 1
    unfold clientSend
    rw [hreg]
    simp only [removeCall, List.find?_append, hfindseq, Option.none_or]
    have : List.find? (fun p => p.1 == st.seq) [(st.seq, callId)] = some (st.seq, callId) := by
      simp [List.find?]
    rw [this]
    simp
  | responseReceived errh bdf =>
    obtain ⟨hcl, hsh⟩ := hval
    have hflag : ¬ (st.closing || st.shutdown) = true := by simp [hcl, hsh]
    have hreg : registerCall st callId =
        ({ st with pending := st.pending ++ [(st.seq, callId)], seq := st.seq + 1 },
         Except.ok st.seq) := by
      unfold registerCall
      rw [if_neg hflag]
    show ((clientSend st callId false).2 ++
      (clientReceiveStep (clientSend st callId false).1
        { seq := st.seq, error := errh } bdf).2).count callId = 1
    have hsend : clientSend st callId false =
        ({ st with pending := st.pending ++ [(st.seq, callId)], seq := st.seq + 1 }, []) := by
      unfold clientSend
      rw [hreg]
      rfl
    rw [hsend]
    simp only [List.nil_append]
    unfold clientReceiveStep removeCall
    simp only [List.find?_append, hfindseq, Option.none_or]
    have : List.find? (fun p => p.1 == st.seq) [(st.seq, callId)] = some (st.seq, callId) := by
      simp [List.find?]
    rw [this]
    by_cases he : errh ≠ "" <;> cases bdf <;> simp [he]
  | connectionTerminated =>
    obtain ⟨hcl, hsh⟩ := hval
    have hflag : ¬ (st.closing || st.shutdown) = true := by simp [hcl, hsh]
    have hreg : registerCall st callId =
        ({ st with pending := st.pending ++ [(st.seq, callId)], seq := st.seq + 1 },
         Except.ok st.seq) := by
      unfold registerCall
      rw [if_neg hflag]
    show ((clientSend st callId false).2 ++
      (terminateCalls (clientSend st callId false).1).2).count callId = 1
    have hsend : clientSend st callId false =
        ({ st with pending := st.pending ++ [(st.seq, callId)], seq := st.seq + 1 }, []) := by
      unfold clientSend
      rw [hreg]
      rfl
    rw [hsend]
    unfold terminateCalls
    simp [List.count_append, hcount0]

/-- Witness for the C3 theorem: on a fresh client, a call that is sent
and answered normally fires its done notification exactly once. -/
theorem call_done_exactly_once_witness :
    (callDoneEvents initialClientState 42 (CallCompletion.responseReceived "" false)).count 42
      = 1 :=
  call_done_exactly_once initialClientState 42 (CallCompletion.responseReceived "" false)
    (by constructor <;> simp [initialClientState]) (by constructor <;> rfl)

/-- Helper: inserting a key absent from a Go map appends the binding. -/
theorem mapInsert_fresh (m : List (Nat × String)) (k : Nat) (v : String)
    (h : mapLookup m k = none) : mapInsert m k v = m ++ [(k, v)] := by
  induction m with
  | nil => rfl
  | cons p rest ih =>
    obtain ⟨pk, pv⟩ := p
    unfold mapLookup at h
    unfold mapInsert
    by_cases hp : pk = k
    · rw [if_pos hp] at h
      cases h
    · rw [if_neg hp] at h
      rw [if_neg hp, ih h]
      rfl

/-- Helper: lookup distributes over map append. -/
theorem mapLookup_append (m1 m2 : List (Nat × String)) (k : Nat) :
    mapLookup (m1 ++ m2) k = (mapLookup m1 k).or (mapLookup m2 k) := by
  induction m1 with
  | nil => simp [mapLookup, Option.none_or]
  | cons p rest ih =>
    obtain ⟨pk, pv⟩ := p
    by_cases hp : pk = k
    · simp [mapLookup, hp, option_some_or]
    · simp [mapLookup, hp, ih]

/-- Helper: `AddNode`'s loop over pairwise-fresh keys appends their
bindings in order. -/
theorem addKeys_nodes_fresh (b : String) (ks : List Nat) :
    ∀ nodes : List (Nat × String), ∀ sorted : List Nat,
      ks.Nodup → (∀ k ∈ ks, mapLookup nodes k = none) →
      (addKeys b nodes sorted ks).1 = nodes ++ ks.map (fun k => (k, b)) := by
  induction ks with
  | nil =>
    intro nodes sorted _ _
    simp [addKeys]
  | cons k rest ih =>
    intro nodes sorted hnd hf
    show (addKeys b (mapInsert nodes k b) (sorted ++ [k]) rest).1 = _
    rw [mapInsert_fresh nodes k b (hf k (by simp))]
    rw [ih (nodes ++ [(k, b)]) (sorted ++ [k]) (List.nodup_cons.mp hnd).2]
    · simp
    · intro k' hk'
      rw [mapLookup_append]
      have h1 : mapLookup nodes k' = none := hf k' (by simp [hk'])
      have h2 : mapLookup [(k, b)] k' = none := by
        have : ¬ k = k' := by
          intro hh
          exact (List.nodup_cons.mp hnd).1 (hh ▸ hk')
        simp [mapLookup, this]
      rw [h1, h2]
      rfl

/-- Helper: deleting a key missing from the left part of a map skips it. -/
theorem mapDelete_append_fresh (m1 m2 : List (Nat × String)) (k : Nat)
    (h : mapLookup m1 k = none) :
    mapDelete (m1 ++ m2) k = m1 ++ mapDelete m2 k := by
  induction m1 with
  | nil => rfl
  | cons p rest ih =>
    obtain ⟨pk, pv⟩ := p
    unfold mapLookup at h
    by_cases hp : pk = k
    · rw [if_pos hp] at h
      cases h
    · rw [if_neg hp] at h
      show (if pk = k then rest ++ m2 else (pk, pv) :: mapDelete (rest ++ m2) k) = _
      rw [if_neg hp, ih h]
      simp

/-- Helper: `removeNode`'s loop is a fold of the per-key deletions. -/
theorem removeKeys_fst (ks : List Nat) :
    ∀ nodes : List (Nat × String), ∀ sorted : List Nat,
      (removeKeys nodes sorted ks).1 = ks.foldl mapDelete nodes := by
  induction ks with
  | nil =>
    intro nodes sorted
    rfl
  | cons k rest ih =>
    intro nodes sorted
    exact ih _ _

/-- Helper: `removeNode`'s loop is a fold of the per-key splices. -/
theorem removeKeys_snd (ks : List Nat) :
    ∀ nodes : List (Nat × String), ∀ sorted : List Nat,
      (removeKeys nodes sorted ks).2 = ks.foldl spliceOut sorted := by
  induction ks with
  | nil =>
    intro nodes sorted
    rfl
  | cons k rest ih =>
    intro nodes sorted
    exact ih _ _

/-- Helper: deleting the freshly appended bindings in order restores the
original map. -/
theorem foldl_mapDelete_restore (b : String) (ks : List Nat) :
    ∀ m : List (Nat × String), (∀ k ∈ ks, mapLookup m k = none) →
      ks.foldl mapDelete (m ++ ks.map (fun k => (k, b))) = m := by
  induction ks with
  | nil =>
    intro m _
    simp
  | cons k rest ih =>
    intro m hf
    rw [List.map_cons, List.foldl_cons]
    have hdel : mapDelete (m ++ (k, b) :: rest.map (fun k => (k, b))) k =
        m ++ rest.map (fun k => (k, b)) := by
      rw [mapDelete_append_fresh m _ k (hf k (by simp))]
      show m ++ (if k = k then rest.map (fun k => (k, b)) else _) = _
      rw [if_pos rfl]
    rw [hdel]
    exact ih m (fun k' hk' => hf k' (by simp [hk']))

/-- Helper: the scan misses exactly when the key is absent. -/
theorem getIndexForKey_none_iff (s : List Nat) (k : Nat) :
    getIndexForKey s k = none ↔ k ∉ s := by
  induction s with
  | nil => simp [getIndexForKey]
  | cons v rest ih =>
    unfold getIndexForKey
    by_cases hv : v = k
    · simp [hv]
    · simp [hv, Option.map_eq_none', ih, Ne.symm hv]

/-- Helper: the splice of `removeNode` is exactly first-occurrence
erasure. -/
theorem spliceOut_eq_erase (s : List Nat) (k : Nat) : spliceOut s k = s.erase k := by
  induction s with
  | nil => rfl
  | cons v rest ih =>
    by_cases hv : v = k
    · subst hv
      unfold spliceOut getIndexForKey
      rw [if_pos rfl]
      simp [List.erase_cons_head]
    · have hbeq : ¬ (v == k) = true := by simp [hv]
      cases hidx : getIndexForKey rest k with
      | none =>
        have hnm : k ∉ rest := (getIndexForKey_none_iff rest k).mp hidx
        unfold spliceOut getIndexForKey
        rw [if_neg hv, hidx]
        simp [List.erase_cons_tail hbeq, List.erase_of_not_mem hnm]
      | some j =>
        have hsplice : rest.take j ++ rest.drop (j + 1) = rest.erase k := by
          rw [← ih]
          unfold spliceOut
          rw [hidx]
        unfold spliceOut getIndexForKey
        rw [if_neg hv, hidx]
        simp only [Option.map_some']
        rw [List.erase_cons_tail hbeq]
        show (v :: rest).take (j + 1) ++ (v :: rest).drop (j + 1 + 1) = v :: rest.erase k
        rw [List.take_succ_cons, List.drop_succ_cons, ← hsplice]
        rfl

/-- Helper: erasing appended fresh keys from a sorted permutation
restores the original sorted list. -/
theorem foldl_erase_sorted (ks : List Nat) :
    ∀ L s : List Nat, L.Sorted (· ≤ ·) → s.Sorted (· ≤ ·) → L.Perm (s ++ ks) →
      ks.Nodup → (∀ k ∈ ks, k ∉ s) →
      ks.foldl (fun l k => l.erase k) L = s := by
  induction ks with
  | nil =>
    intro L s hL hs hperm _ _
    exact List.eq_of_perm_of_sorted (by simpa using hperm) hL hs
  | cons k rest ih =>
    intro L s hL hs hperm hnd hf
    rw [List.foldl_cons]
    apply ih (L.erase k) s
    · exact List.Pairwise.sublist (List.erase_sublist k L) hL
    · exact hs
    · have h1 : (s ++ k :: rest).erase k = s ++ rest := by
        rw [List.erase_append_right _ (hf k (by simp))]
        rw [List.erase_cons_head]
      exact h1 ▸ hperm.erase k
    · exact (List.nodup_cons.mp hnd).2
    · intro k' hk'
      exact hf k' (by simp [hk'])

/-- Claim C9: for a ring whose key slice is sorted, and an address `b`
whose `R` virtual-node keys are pairwise distinct and distinct from every
existing ring key (absent from both the map and the slice), `AddNode(b)`
followed by `removeNode(b)` restores the ring exactly: the key-to-backend
map and the sorted key slice equal their values before the `AddNode`. -/
theorem addNode_removeNode_roundtrip (hr : HashRing) (b : String)
    (hsorted : hr.sortedNodes.Sorted (· ≤ ·))
    (hnodup : (ringKeys hr.replicateCount b).Nodup)
    (hfreshS : ∀ k ∈ ringKeys hr.replicateCount b, k ∉ hr.sortedNodes)
    (hfreshN : ∀ k ∈ ringKeys hr.replicateCount b, mapLookup hr.nodes k = none) :
    (hr.AddNode b).removeNode b = hr := by
  obtain ⟨R, N, S⟩ := hr
  simp only [HashRing.AddNode, HashRing.removeNode] at *
  have hadd1 : (addKeys b N S (ringKeys R b)).1 = N ++ (ringKeys R b).map (fun k => (k, b)) :=
    addKeys_nodes_fresh b (ringKeys R b) N S hnodup hfreshN
  have hadd2 : (addKeys b N S (ringKeys R b)).2 = S ++ ringKeys R b :=
    addKeys_snd b (ringKeys R b) N S
  rw [removeKeys_fst, removeKeys_snd, hadd1, hadd2]
  have hnodes : (ringKeys R b).foldl mapDelete (N ++ (ringKeys R b).map (fun k => (k, b))) = N :=
    foldl_mapDelete_restore b (ringKeys R b) N hfreshN
  have hsplicefun : spliceOut = fun (l : List Nat) (k : Nat) => l.erase k :=
    funext fun l => funext fun k => spliceOut_eq_erase l k
  have hsortedres : (ringKeys R b).foldl (fun l k => l.erase k) (sortKeys (S ++ ringKeys R b)) = S := by
    apply foldl_erase_sorted
    · exact List.sorted_insertionSort _ _
    · exact hsorted
    · exact List.perm_insertionSort _ _
    · exact hnodup
    · exact hfreshS
  rw [hnodes, hsplicefun, hsortedres]

/-- Witness for the C9 round-trip theorem on the one-entry ring
`{R := 2, nodes := [(5, "x")], sortedNodes := [5]}` and address "a". -/
theorem addNode_removeNode_roundtrip_witness :
    (HashRing.removeNode
      (HashRing.AddNode { replicateCount := 2, nodes := [(5, "x")], sortedNodes := [5] } "a") "a")
      = { replicateCount := 2, nodes := [(5, "x")], sortedNodes := [5] } :=
  addNode_removeNode_roundtrip { replicateCount := 2, nodes := [(5, "x")], sortedNodes := [5] }
    "a" (by decide) (by decide) (by decide) (by decide)
